import Mathlib

/-!
Verification of the SQL-like TCP record server (`database/src/index.ts` of the
repository): the statement parser (`sqlParser`), the durable table store
(`loadData` / `saveData`, one JSON text file per table), and the command
executor (the `net.createServer` data handler).  The development embeds the
TypeScript source shallowly:

* A stored record (`Data` in the source) has an integer `id` and `name` /
  `description` fields; the latter are `Option String` because the handler
  copies `parsedCommand.data.name` which is JS `undefined` when the INSERT
  statement named no such column.
* The durable state is modelled at the file-text level: a `Store` maps a table
  name to the text of its backing file (`none` when the file does not exist).
  `saveData` writes the text `JSON.stringify(data, null, 2)` produces, embedded
  here as `encodeRecords`; `loadData` runs `JSON.parse` on the text, embedded
  as `decodeRecords`, which accepts exactly the canonical encoding that
  `saveData` itself writes (full JSON tolerance of `JSON.parse` beyond that
  image is immaterial to the properties below).  Both functions mirror the
  source's `try`/`catch`: every failure is caught, logged and swallowed.
* The parser embeds the three anchored regexes of `sqlParser`, including the
  case-insensitive keyword matching of the `/i` flag, the `\w+` table token,
  the `[^)]+` column/value segments, comma splitting and per-item trimming.
* `execute` embeds the three branches of the connection handler's `data`
  callback; the INSERT branch is split into its load phase and the remainder
  (`insertFinish`) because the source `await`s between them, which is exactly
  where concurrent connections interleave.
* `fs.writeFile` failure is environmental; it is modelled by the `writeFails`
  oracle argument: when `true` the write fails and `saveData`'s `catch`
  swallows the error leaving the file unchanged.
-/

namespace DB

/-- The record type of the source (`type Data = \x7b id; name; description \x7d`).
`name` and `description` are `Option String`: the handler builds
`\x7b id: newId, name: parsedCommand.data.name, ... \x7d` and the accessed
property is `undefined` (`none`) when the INSERT listed no such column. -/
structure Data where
  id : Int
  name : Option String
  description : Option String
deriving DecidableEq

/-! ### Decimal and hexadecimal digits -/

/-- Numeric value of a decimal digit character (used by `parseInt` on the
digits captured by `\d+`, and by the JSON number parser). -/
def digitVal (c : Char) : Nat := c.toNat - '0'.toNat

/-- Value of a decimal digit string, most significant first. -/
def digitsToNat (ds : List Char) : Nat := ds.foldl (fun a c => 10 * a + digitVal c) 0

/-- Decimal digits of `n`, most significant first; `fuel`-based recursion
(`fuel > n` suffices). -/
def natDigitsAux : Nat → Nat → List Char
  | 0, _ => []
  | fuel + 1, n =>
    if n < 10 then [Nat.digitChar n]
    else natDigitsAux fuel (n / 10) ++ [Nat.digitChar (n % 10)]

/-- Decimal digit characters of `n`, as `JSON.stringify` prints a
non-negative integer. -/
def natDigits (n : Nat) : List Char := natDigitsAux (n + 1) n

/-- The characters `JSON.stringify` prints for an integer JS number. -/
def intChars (n : Int) : List Char :=
  if n < 0 then '-' :: natDigits n.natAbs else natDigits n.toNat

/-- Value of a hexadecimal digit character, `none` for non-hex characters. -/
def hexVal (c : Char) : Option Nat :=
  if c.isDigit then some (c.toNat - '0'.toNat)
  else if 'a' ≤ c ∧ c ≤ 'f' then some (c.toNat - 'a'.toNat + 10)
  else if 'A' ≤ c ∧ c ≤ 'F' then some (c.toNat - 'A'.toNat + 10)
  else none

/-! ### The JSON encoding written by `saveData`

`saveData` persists `JSON.stringify(data, null, 2)`: a two-space indented
array of objects whose keys appear in the construction order `id`, `name`,
`description`, with `undefined` fields omitted and strings escaped. -/

/-- `JSON.stringify` escaping of one string character. -/
def escChar (c : Char) : List Char :=
  if c = '"' then ['\\', '"']
  else if c = '\\' then ['\\', '\\']
  else if c = '\x08' then ['\\', 'b']
  else if c = '\t' then ['\\', 't']
  else if c = '\n' then ['\\', 'n']
  else if c = '\x0c' then ['\\', 'f']
  else if c = '\r' then ['\\', 'r']
  else if c.toNat < 32 then
    ['\\', 'u', '0', '0', Nat.digitChar (c.toNat / 16), Nat.digitChar (c.toNat % 16)]
  else [c]

/-- `JSON.stringify` escaping of a whole string body. -/
def escString (s : String) : List Char := (s.toList.map escChar).flatten

/-- Interleave a separator between chunks (`Array.prototype.join`). -/
def joinSep (sep : List Char) : List (List Char) → List Char
  | [] => []
  | [x] => x
  | x :: xs => (x ++ sep) ++ joinSep sep xs

/-- One stringified record object as it appears inside the two-space indented
array: key lines in the construction order `id`, `name`, `description`
(each preceded by `,\n` after the first), `undefined` fields omitted exactly
as `JSON.stringify` omits them, and the closing brace indented at the array
element level. -/
def encodeObj (d : Data) : List Char :=
  "\x7b\n    \"id\": ".toList ++
    (intChars d.id ++
      ((match d.name with
        | some s => ",\n    \"name\": \"".toList ++ (escString s ++ ['"'])
        | none => []) ++
        ((match d.description with
          | some s => ",\n    \"description\": \"".toList ++ (escString s ++ ['"'])
          | none => []) ++ "\n  \x7d".toList)))

/-- The text `JSON.stringify(l, null, 2)` writes for the record array. -/
def encodeRecordsChars : List Data → List Char
  | [] => "[]".toList
  | l => "[\n".toList ++
      (joinSep (",\n".toList) (l.map (fun d => "  ".toList ++ encodeObj d)) ++ "\n]".toList)

/-- The file text `saveData` writes. -/
def encodeRecords (l : List Data) : String := String.mk (encodeRecordsChars l)

/-! ### The JSON decoding performed by `loadData`

`loadData` runs `JSON.parse(text) as Data[]`.  The decoder below accepts the
canonical encoding `saveData` writes and rejects malformed text; a rejection
models `JSON.parse` throwing, which `loadData` catches. -/

/-- Consume an exact literal from the front of the input. -/
def expectLit : List Char → List Char → Option (List Char)
  | [], s => some s
  | _ :: _, [] => none
  | p :: ps, c :: cs => if c = p then expectLit ps cs else none

/-- Parse a JSON string body after the opening quote, undoing `escChar`;
returns the decoded characters and the input after the closing quote. -/
def parseStrAux : List Char → Option (List Char × List Char)
  | [] => none
  | c :: cs =>
    if c = '"' then some ([], cs)
    else if c = '\\' then
      match cs with
      | [] => none
      | e :: cs2 =>
        if e = '"' ∨ e = '\\' ∨ e = '/' then
          (parseStrAux cs2).map (fun p => (e :: p.1, p.2))
        else if e = 'b' then (parseStrAux cs2).map (fun p => ('\x08' :: p.1, p.2))
        else if e = 'f' then (parseStrAux cs2).map (fun p => ('\x0c' :: p.1, p.2))
        else if e = 'n' then (parseStrAux cs2).map (fun p => ('\n' :: p.1, p.2))
        else if e = 'r' then (parseStrAux cs2).map (fun p => ('\r' :: p.1, p.2))
        else if e = 't' then (parseStrAux cs2).map (fun p => ('\t' :: p.1, p.2))
        else if e = 'u' then
          match cs2 with
          | h1 :: h2 :: h3 :: h4 :: cs3 =>
            match hexVal h1, hexVal h2, hexVal h3, hexVal h4 with
            | some a, some b, some c2, some d =>
              (parseStrAux cs3).map
                (fun p => (Char.ofNat ((((a * 16 + b) * 16 + c2) * 16 + d)) :: p.1, p.2))
            | _, _, _, _ => none
          | _ => none
        else none
    else (parseStrAux cs).map (fun p => (c :: p.1, p.2))

/-- Parse a maximal nonempty run of decimal digits. -/
def parseDigits (s : List Char) : Option (Nat × List Char) :=
  let ds := s.takeWhile Char.isDigit
  if ds.isEmpty then none else some (digitsToNat ds, s.dropWhile Char.isDigit)

/-- Parse a JSON integer literal (optional minus sign, then digits). -/
def parseIntLit (s : List Char) : Option (Int × List Char) :=
  match s with
  | '-' :: rest => (parseDigits rest).map (fun p => (-(p.1 : Int), p.2))
  | _ => (parseDigits s).map (fun p => ((p.1 : Int), p.2))

/-- Parse an optional `,\n    "name": "…"` field line. -/
def parseNameField (s : List Char) : Option (String × List Char) :=
  match expectLit (",\n    \"name\": \"".toList) s with
  | none => none
  | some r => (parseStrAux r).map (fun p => (String.mk p.1, p.2))

/-- Parse an optional `,\n    "description": "…"` field line. -/
def parseDescField (s : List Char) : Option (String × List Char) :=
  match expectLit (",\n    \"description\": \"".toList) s with
  | none => none
  | some r => (parseStrAux r).map (fun p => (String.mk p.1, p.2))

/-- Parse one record object of the canonical encoding. -/
def parseObjBody (s : List Char) : Option (Data × List Char) :=
  match expectLit ("\x7b\n    \"id\": ".toList) s with
  | none => none
  | some r =>
    match parseIntLit r with
    | none => none
    | some (i, r2) =>
      let nm := match parseNameField r2 with
        | some p => (some p.1, p.2)
        | none => ((none : Option String), r2)
      let ds := match parseDescField nm.2 with
        | some p => (some p.1, p.2)
        | none => ((none : Option String), nm.2)
      match expectLit ("\n  \x7d".toList) ds.2 with
      | none => none
      | some r5 => some (⟨i, nm.1, ds.1⟩, r5)

/-- Parse the nonempty element list of the array, up to and including the
closing `\n]`.  `fuel` bounds the number of elements. -/
def parseItemsAux : Nat → List Char → Option (List Data × List Char)
  | 0, _ => none
  | fuel + 1, s =>
    match expectLit ("  ".toList) s with
    | none => none
    | some r =>
      match parseObjBody r with
      | none => none
      | some (d, r2) =>
        match expectLit (",\n".toList) r2 with
        | some r3 => (parseItemsAux fuel r3).map (fun p => (d :: p.1, p.2))
        | none =>
          match expectLit ("\n]".toList) r2 with
          | none => none
          | some r3 => some ([d], r3)

/-- Decode a whole file text. -/
def decodeRecordsChars (s : List Char) : Option (List Data) :=
  match s with
  | '[' :: ']' :: rest => if rest.isEmpty then some [] else none
  | '[' :: '\n' :: rest =>
    (match parseItemsAux (rest.length + 1) rest with
     | some (l, r) => if r.isEmpty then some l else none
     | none => none)
  | _ => none

/-- `JSON.parse(text) as Data[]` on the table store's own encoding;
`none` models the parse throwing on malformed text. -/
def decodeRecords (txt : String) : Option (List Data) := decodeRecordsChars txt.toList

/-! ### The table store -/

/-- Durable state: the text content of `data/<table>.txt` per table name,
`none` when the file does not exist. -/
def Store : Type := String → Option String

/-- No table file exists yet. -/
def emptyStore : Store := fun _ => none

/-- `loadData(table)` from the source: read the file and `JSON.parse` it; any
error (missing file, malformed text) is caught, logged, and an empty array is
returned. -/
def loadData (table : String) (st : Store) : List Data :=
  match st table with
  | none => []
  | some txt =>
    match decodeRecords txt with
    | some l => l
    | none => []

/-- `saveData(data, table)` from the source: write
`JSON.stringify(data, null, 2)` to the table's file.  A failing
`fs.writeFile` (the `writeFails` oracle) is caught and logged; nothing is
reported to the caller and the file is left as it was. -/
def saveData (d : List Data) (table : String) (writeFails : Bool) (st : Store) : Store :=
  if writeFails then st
  else fun u => if u = table then some (encodeRecords d) else st u

/-! ### The statement parser (`sqlParser`) -/

/-- JS regex `\w`: ASCII letters, digits, underscore. -/
def isWordChar (c : Char) : Bool := c.isAlpha || c.isDigit || c = '_'

/-- Match a literal pattern case-insensitively (the `/i` regex flag) and
return the remaining input. -/
def stripCI : List Char → List Char → Option (List Char)
  | [], s => some s
  | _ :: _, [] => none
  | p :: ps, c :: cs => if c.toLower = p.toLower then stripCI ps cs else none

/-- Regex `/^SELECT \* FROM (\w+)$/i`: after the keywords, the rest of the
line must be one nonempty word token (the table name). -/
def matchSelectAll (s : List Char) : Option String :=
  match stripCI ("SELECT * FROM ".toList) s with
  | none => none
  | some rest =>
    if !rest.isEmpty && rest.all isWordChar then some (String.mk rest) else none

/-- Regex `/^SELECT \* FROM (\w+) WHERE id = (\d+)$/i` plus the source's
`parseInt` on the captured digits. -/
def matchSelectWhere (s : List Char) : Option (String × Nat) :=
  match stripCI ("SELECT * FROM ".toList) s with
  | none => none
  | some rest =>
    let w := rest.takeWhile isWordChar
    let r := rest.dropWhile isWordChar
    if w.isEmpty then none
    else
      match stripCI (" WHERE id = ".toList) r with
      | none => none
      | some r2 =>
        if !r2.isEmpty && r2.all Char.isDigit then some (String.mk w, digitsToNat r2)
        else none

/-- Regex `/^INSERT INTO (\w+) \(([^)]+)\) VALUES \(([^)]+)\)$/i`: returns the
table token and the two raw captured segments (the characters between the
parentheses). -/
def matchInsert (s : List Char) : Option (String × List Char × List Char) :=
  match stripCI ("INSERT INTO ".toList) s with
  | none => none
  | some rest =>
    let w := rest.takeWhile isWordChar
    let r := rest.dropWhile isWordChar
    if w.isEmpty then none
    else
      match stripCI (" (".toList) r with
      | none => none
      | some r2 =>
        let cols := r2.takeWhile (fun c => c ≠ ')')
        let r3 := r2.dropWhile (fun c => c ≠ ')')
        if cols.isEmpty then none
        else
          match stripCI (") VALUES (".toList) r3 with
          | none => none
          | some r4 =>
            let vals := r4.takeWhile (fun c => c ≠ ')')
            let r5 := r4.dropWhile (fun c => c ≠ ')')
            if vals.isEmpty then none
            else
              match r5 with
              | [')'] => some (String.mk w, cols, vals)
              | _ => none

/-- `String.prototype.split(",")`. -/
def splitComma : List Char → List (List Char)
  | [] => [[]]
  | c :: cs =>
    if c = ',' then [] :: splitComma cs
    else
      match splitComma cs with
      | [] => [[c]]
      | g :: gs => (c :: g) :: gs

/-- `String.prototype.trim()` on a character list. -/
def trimChars (s : List Char) : List Char :=
  ((s.dropWhile Char.isWhitespace).reverse.dropWhile Char.isWhitespace).reverse

/-- The typed command the parser produces.  The INSERT data bag
(`\x7b [key: string]: any \x7d` built by `columns.forEach`) is kept as the
column/value pair list; property access on it is `objGet` below. -/
inductive ParsedCommand where
  | selectAll (table : String)
  | selectById (table : String) (id : Nat)
  | insert (table : String) (fields : List (String × String))
deriving DecidableEq

/-- The two distinct `throw` sites of `sqlParser`:
`"Column and value count mismatch in INSERT statement"` and
`"Unsupported SQL command format"`. -/
inductive ParseErr where
  | countMismatch
  | unsupported
deriving DecidableEq

/-- JS property access on the data bag built by
`columns.forEach((col, i) => \x7b data[col] = values[i] \x7d)`: a later
assignment to the same key overwrites an earlier one, so lookup finds the
last matching column. -/
def objGet (key : String) (fields : List (String × String)) : Option String :=
  (fields.reverse.find? (fun p => p.1 = key)).map Prod.snd

/-- `sqlParser` from the source: trim, then try the three anchored regexes in
order; on an INSERT, split both captured segments on commas, trim each item,
and pair them positionally after the arity check. -/
def sqlParser (sql : String) : Except ParseErr ParsedCommand :=
  let s := trimChars sql.toList
  match matchSelectAll s with
  | some t => .ok (.selectAll t)
  | none =>
    match matchSelectWhere s with
    | some p => .ok (.selectById p.1 p.2)
    | none =>
      match matchInsert s with
      | some (t, cs, vs) =>
        let columns := (splitComma cs).map (fun c => String.mk (trimChars c))
        let values := (splitComma vs).map (fun v => String.mk (trimChars v))
        if columns.length ≠ values.length then .error .countMismatch
        else .ok (.insert t (columns.zip values))
      | none => .error .unsupported

/-! ### The command executor (the `data` handler) -/

/-- The JSON responses the handler writes back on the socket. -/
inductive Result where
  | rows (records : List Data)
  | inserted (newData : Data)
  | notFound
  | unsupportedCmd
  | invalidCommand
deriving DecidableEq

/-- `Math.max(...ids)` over a nonempty id list (`0` is never used: the caller
guards with `data.length > 0`). -/
def maxInts : List Int → Int
  | [] => 0
  | x :: xs => xs.foldl max x

/-- `Math.max(...data.map(s => s.id))`. -/
def maxId (l : List Data) : Int := maxInts (l.map Data.id)

/-- The INSERT branch after its `await loadData` has returned `data`: compute
the new id, build `newData` from the parsed field bag, append, and
`await saveData`.  The handler then writes `\x7b success: true, newData \x7d`. -/
def insertFinish (t : String) (fields : List (String × String)) (writeFails : Bool)
    (data : List Data) (st : Store) : Result × Store :=
  let newId : Int := if 0 < data.length then maxId data + 1 else 1
  let newData : Data :=
    { id := newId, name := objGet ("name") fields, description := objGet ("description") fields }
  (.inserted newData, saveData (data ++ [newData]) t writeFails st)

/-- The three command branches of the `data` handler. -/
def execute (cmd : ParsedCommand) (writeFails : Bool) (st : Store) : Result × Store :=
  match cmd with
  | .selectAll t => (.rows (loadData t st), st)
  | .selectById t k =>
    let data := loadData t st
    (match data.find? (fun s => s.id == (k : Int)) with
     | some datum => (.rows [datum], st)
     | none => (.notFound, st))
  | .insert t fields => insertFinish t fields writeFails (loadData t st) st

/-- One whole `data` callback: parse the received line, dispatch, and on a
`sqlParser` throw answer `\x7b error: 'Invalid SQL command' \x7d` from the
`catch` block.  (The handler's own `else` branch answering
`'Unsupported command'` is unreachable for commands the parser accepts, since
every parsed command is a SELECT or an INSERT with a data bag; the `Result`
constructor `unsupportedCmd` records that response for completeness.) -/
def handle (raw : String) (writeFails : Bool) (st : Store) : Result × Store :=
  match sqlParser raw with
  | .error _ => (.invalidCommand, st)
  | .ok cmd => execute cmd writeFails st

/-- Executing a list of INSERTs one after another (each one's save completing
before the next one's load starts). -/
def insertSeq (t : String) (fs : List (List (String × String))) (st : Store) : Store :=
  fs.foldl (fun s f => (execute (.insert t f) false s).2) st

/-- The id sequence `1, 2, …, n`. -/
def seqIds (n : Nat) : List Int := (List.range n).map (fun k : Nat => (k : Int) + 1)

/-! ## Helper lemmas: decimal digits -/

lemma digitVal_digitChar {d : Nat} (h : d < 10) : digitVal (Nat.digitChar d) = d := by
  interval_cases d <;> decide

lemma digitChar_isDigit {d : Nat} (h : d < 10) : (Nat.digitChar d).isDigit = true := by
  interval_cases d <;> decide

lemma natDigitsAux_all_digit (fuel n : Nat) :
    (natDigitsAux fuel n).all Char.isDigit = true := by
  induction fuel generalizing n with
  | zero => simp [natDigitsAux]
  | succ f ih =>
    rw [natDigitsAux]
    split
    · next h => simp [digitChar_isDigit h]
    · next h =>
      simp only [List.all_append, ih, Bool.true_and, List.all_cons, List.all_nil,
        Bool.and_true]
      exact digitChar_isDigit (Nat.mod_lt _ (by omega))

lemma natDigitsAux_ne_nil {fuel n : Nat} (h : n < fuel) : natDigitsAux fuel n ≠ [] := by
  cases fuel with
  | zero => omega
  | succ f =>
    rw [natDigitsAux]
    split
    · simp
    · simp

lemma digitsToNat_append_singleton (ds : List Char) (c : Char) :
    digitsToNat (ds ++ [c]) = 10 * digitsToNat ds + digitVal c := by
  simp [digitsToNat, List.foldl_append]

lemma digitsToNat_natDigitsAux {fuel n : Nat} (h : n < fuel) :
    digitsToNat (natDigitsAux fuel n) = n := by
  induction fuel generalizing n with
  | zero => omega
  | succ f ih =>
    rw [natDigitsAux]
    split
    · next h10 => simp [digitsToNat, digitVal_digitChar h10]
    · next h10 =>
      have hdiv : n / 10 < f := by
        have := Nat.div_lt_self (by omega : 0 < n) (by omega : 1 < 10)
        omega
      rw [digitsToNat_append_singleton, ih hdiv, digitVal_digitChar (Nat.mod_lt _ (by omega))]
      omega

lemma digitsToNat_natDigits (n : Nat) : digitsToNat (natDigits n) = n :=
  digitsToNat_natDigitsAux (Nat.lt_succ_self n)

lemma natDigits_all_digit (n : Nat) : (natDigits n).all Char.isDigit = true :=
  natDigitsAux_all_digit _ _

lemma natDigits_ne_nil (n : Nat) : natDigits n ≠ [] :=
  natDigitsAux_ne_nil (Nat.lt_succ_self n)

/-! ## Helper lemmas: takeWhile / dropWhile over a recognized block -/

lemma takeWhile_block {p : Char → Bool} {ds r : List Char} (h1 : ds.all p = true)
    (h2 : ∀ c ∈ r.head?, p c = false) :
    (ds ++ r).takeWhile p = ds ∧ (ds ++ r).dropWhile p = r := by
  induction ds with
  | nil =>
    simp only [List.nil_append]
    cases r with
    | nil => simp
    | cons c cs =>
      have := h2 c (by simp)
      simp [List.takeWhile, List.dropWhile, this]
  | cons d ds ih =>
    simp only [List.all_cons, Bool.and_eq_true] at h1
    have := ih h1.2
    simp [List.takeWhile, List.dropWhile, h1.1, this.1, this.2]

/-! ## Helper lemmas: integer literal parsing -/

lemma parseDigits_block {n : Nat} {r : List Char}
    (h : ∀ c ∈ r.head?, c.isDigit = false) :
    parseDigits (natDigits n ++ r) = some (n, r) := by
  have hb := takeWhile_block (natDigits_all_digit n) h
  have hne : (natDigits n).isEmpty = false := by
    cases hnn : natDigits n with
    | nil => exact absurd hnn (natDigits_ne_nil n)
    | cons a l => simp
  simp [parseDigits, hb.1, hb.2, hne, digitsToNat_natDigits]

lemma natDigits_head (n : Nat) :
    ∃ c l, natDigits n = c :: l ∧ c.isDigit = true ∧ c ≠ '-' := by
  cases hnn : natDigits n with
  | nil => exact absurd hnn (natDigits_ne_nil n)
  | cons a l =>
    have hall := natDigits_all_digit n
    rw [hnn] at hall
    simp only [List.all_cons, Bool.and_eq_true] at hall
    refine ⟨a, l, rfl, hall.1, fun hdash => ?_⟩
    rw [hdash] at hall
    exact absurd hall.1 (by decide)

lemma parseIntLit_block {n : Int} {r : List Char}
    (h : ∀ c ∈ r.head?, c.isDigit = false) :
    parseIntLit (intChars n ++ r) = some (n, r) := by
  by_cases hn : n < 0
  · rw [intChars, if_pos hn]
    rw [List.cons_append, parseIntLit, parseDigits_block h]
    simp only [Option.map_some']
    have h2 : -((n.natAbs : Int)) = n := by omega
    rw [h2]
  · rw [intChars, if_neg hn]
    obtain ⟨c, l, hcl, hcd, hdash⟩ := natDigits_head n.toNat
    rw [hcl, List.cons_append, parseIntLit.eq_def]
    split
    · next rest heq =>
      injection heq with h1 _
      exact absurd h1 hdash
    · rw [← List.cons_append, ← hcl, parseDigits_block h]
      simp only [Option.map_some']
      have h2 : ((n.toNat : Int)) = n := by omega
      rw [h2]

/-! ## Helper lemmas: literal consumption and string unescaping -/

lemma expectLit_exact (p r : List Char) : expectLit p (p ++ r) = some r := by
  induction p with
  | nil => rfl
  | cons c cs ih => simp [expectLit, ih]

lemma expectLit_none_of_head {a b : Char} (p s : List Char) (h : ¬ b = a) :
    expectLit (a :: p) (b :: s) = none := by
  simp [expectLit, h]

lemma hexVal_digitChar {d : Nat} (h : d < 16) : hexVal (Nat.digitChar d) = some d := by
  interval_cases d <;> decide

lemma parseStrAux_unescape (cs r : List Char) :
    parseStrAux ((cs.map escChar).flatten ++ ('"' :: r)) = some (cs, r) := by
  induction cs with
  | nil =>
    simp only [List.map_nil, List.flatten_nil, List.nil_append]
    rw [parseStrAux.eq_def]
    simp
  | cons c cs ih =>
    simp only [List.map_cons, List.flatten_cons, List.append_assoc]
    rw [escChar]
    by_cases h1 : c = '"'
    · subst h1
      rw [if_pos rfl]
      simp only [List.cons_append, List.nil_append]
      rw [parseStrAux.eq_def]
      simp +decide [ih]
    · rw [if_neg h1]
      by_cases h2 : c = '\\'
      · subst h2
        rw [if_pos rfl]
        simp only [List.cons_append, List.nil_append]
        rw [parseStrAux.eq_def]
        simp +decide [ih]
      · rw [if_neg h2]
        by_cases h3 : c = '\x08'
        · subst h3
          rw [if_pos rfl]
          simp only [List.cons_append, List.nil_append]
          rw [parseStrAux.eq_def]
          simp +decide [ih]
        · rw [if_neg h3]
          by_cases h4 : c = '\t'
          · subst h4
            rw [if_pos rfl]
            simp only [List.cons_append, List.nil_append]
            rw [parseStrAux.eq_def]
            simp +decide [ih]
          · rw [if_neg h4]
            by_cases h5 : c = '\n'
            · subst h5
              rw [if_pos rfl]
              simp only [List.cons_append, List.nil_append]
              rw [parseStrAux.eq_def]
              simp +decide [ih]
            · rw [if_neg h5]
              by_cases h6 : c = '\x0c'
              · subst h6
                rw [if_pos rfl]
                simp only [List.cons_append, List.nil_append]
                rw [parseStrAux.eq_def]
                simp +decide [ih]
              · rw [if_neg h6]
                by_cases h7 : c = '\r'
                · subst h7
                  rw [if_pos rfl]
                  simp only [List.cons_append, List.nil_append]
                  rw [parseStrAux.eq_def]
                  simp +decide [ih]
                · rw [if_neg h7]
                  by_cases h8 : c.toNat < 32
                  · rw [if_pos h8]
                    have hd1 : c.toNat / 16 < 16 := by omega
                    have hd2 : c.toNat % 16 < 16 := Nat.mod_lt _ (by omega)
                    simp only [List.cons_append, List.nil_append]
                    rw [parseStrAux.eq_def]
                    simp +decide only [reduceIte]
                    rw [hexVal_digitChar hd1, hexVal_digitChar hd2]
                    have h0 : hexVal '0' = some 0 := by decide
                    rw [h0]
                    simp only [ih, Option.map_some']
                    have hv : ((((0 : Nat) * 16 + 0) * 16 + c.toNat / 16) * 16 + c.toNat % 16)
                        = c.toNat := by omega
                    rw [hv, Char.ofNat_toNat]
                  · rw [if_neg h8]
                    simp only [List.cons_append, List.nil_append]
                    rw [parseStrAux.eq_def]
                    simp +decide [h1, h2, ih]

/-! ## Helper lemmas: record object round trip -/

lemma mk_toList (s : String) : String.mk s.toList = s := rfl

lemma parseNameField_exact (s : String) (x : List Char) :
    parseNameField (",\n    \"name\": \"".toList ++ (escString s ++ ('"' :: x)))
      = some (s, x) := by
  unfold parseNameField
  rw [expectLit_exact, escString]
  simp only [parseStrAux_unescape, Option.map_some', mk_toList]

lemma parseDescField_exact (s : String) (x : List Char) :
    parseDescField (",\n    \"description\": \"".toList ++ (escString s ++ ('"' :: x)))
      = some (s, x) := by
  unfold parseDescField
  rw [expectLit_exact, escString]
  simp only [parseStrAux_unescape, Option.map_some', mk_toList]

lemma parseNameField_close (x : List Char) :
    parseNameField ("\n  \x7d".toList ++ x) = none := by
  unfold parseNameField
  have h : expectLit (",\n    \"name\": \"".toList) ("\n  \x7d".toList ++ x) = none := by
    simp +decide [expectLit]
  rw [h]

lemma parseDescField_close (x : List Char) :
    parseDescField ("\n  \x7d".toList ++ x) = none := by
  unfold parseDescField
  have h : expectLit (",\n    \"description\": \"".toList) ("\n  \x7d".toList ++ x) = none := by
    simp +decide [expectLit]
  rw [h]

lemma parseNameField_descInput (x : List Char) :
    parseNameField (",\n    \"description\": \"".toList ++ x) = none := by
  unfold parseNameField
  have h : expectLit (",\n    \"name\": \"".toList)
      (",\n    \"description\": \"".toList ++ x) = none := by
    simp +decide [expectLit]
  rw [h]

lemma head_lit_not_digit_nl (x : List Char) :
    ∀ c ∈ ("\n  \x7d".toList ++ x).head?, c.isDigit = false := by
  simp +decide

lemma head_lit_not_digit_name (x : List Char) :
    ∀ c ∈ (",\n    \"name\": \"".toList ++ x).head?, c.isDigit = false := by
  simp +decide

lemma head_lit_not_digit_desc (x : List Char) :
    ∀ c ∈ (",\n    \"description\": \"".toList ++ x).head?, c.isDigit = false := by
  simp +decide

lemma parseObjBody_encodeObj (d : Data) (r : List Char) :
    parseObjBody (encodeObj d ++ r) = some (d, r) := by
  obtain ⟨i, nm, ds⟩ := d
  cases nm with
  | none =>
    cases ds with
    | none =>
      simp only [encodeObj, List.nil_append, List.append_assoc]
      unfold parseObjBody
      rw [expectLit_exact]
      simp only [parseIntLit_block (head_lit_not_digit_nl r), parseNameField_close,
        parseDescField_close, expectLit_exact]
    | some sd =>
      simp only [encodeObj, List.nil_append, List.append_assoc, List.singleton_append,
        List.cons_append]
      unfold parseObjBody
      rw [expectLit_exact]
      simp only [List.cons_append, parseIntLit_block (head_lit_not_digit_desc _),
        parseNameField_descInput, parseDescField_exact, parseDescField_close, expectLit_exact]
  | some sn =>
    cases ds with
    | none =>
      simp only [encodeObj, List.nil_append, List.append_assoc, List.singleton_append,
        List.cons_append]
      unfold parseObjBody
      rw [expectLit_exact]
      simp only [List.cons_append, parseIntLit_block (head_lit_not_digit_name _),
        parseNameField_exact, parseDescField_close, expectLit_exact]
    | some sd =>
      simp only [encodeObj, List.nil_append, List.append_assoc, List.singleton_append,
        List.cons_append]
      unfold parseObjBody
      rw [expectLit_exact]
      simp only [List.cons_append, parseIntLit_block (head_lit_not_digit_name _),
        parseNameField_exact, parseNameField_descInput, parseDescField_exact, expectLit_exact]

/-! ## Helper lemmas: array round trip -/

lemma joinSep_items_length_ge (l : List Data) :
    l.length ≤ (joinSep (",\n".toList) (l.map (fun d => "  ".toList ++ encodeObj d))).length := by
  induction l with
  | nil => simp [joinSep]
  | cons d l ih =>
    cases l with
    | nil => simp [joinSep]
    | cons d2 l2 =>
      simp only [List.map_cons, joinSep, List.length_cons, List.length_append]
      simp only [List.map_cons, List.length_cons] at ih
      have he : ("  ".toList).length = 2 := rfl
      have hg : ((",\n".toList)).length = 2 := rfl
      omega

lemma parseItemsAux_encode (l : List Data) (r : List Char) :
    ∀ fuel, l ≠ [] → l.length ≤ fuel →
      parseItemsAux fuel
        (joinSep (",\n".toList) (l.map (fun d => "  ".toList ++ encodeObj d)) ++
          ("\n]".toList ++ r)) = some (l, r) := by
  induction l with
  | nil => intro fuel h; exact absurd rfl h
  | cons d l ih =>
    intro fuel _ hlen
    cases fuel with
    | zero => simp at hlen
    | succ f =>
      cases l with
      | nil =>
        simp only [List.map_cons, List.map_nil, joinSep, List.append_assoc]
        unfold parseItemsAux
        have hcomma : expectLit (",\n".toList) ("\n]".toList ++ r) = none := by
          simp +decide [expectLit]
        simp only [expectLit_exact, parseObjBody_encodeObj, hcomma]
      | cons d2 l2 =>
        simp only [List.map_cons, joinSep, List.append_assoc]
        unfold parseItemsAux
        have hlen2 : (d2 :: l2).length ≤ f := by
          simp only [List.length_cons] at hlen ⊢
          omega
        have hih := ih f (by simp) hlen2
        simp only [List.map_cons] at hih
        simp only [expectLit_exact, parseObjBody_encodeObj, hih, Option.map_some']

lemma decode_encode (l : List Data) : decodeRecords (encodeRecords l) = some l := by
  cases l with
  | nil => rfl
  | cons d l =>
    show decodeRecordsChars (encodeRecordsChars (d :: l)) = some (d :: l)
    rw [encodeRecordsChars]
    have hshape : "[\n".toList ++
        (joinSep (",\n".toList) ((d :: l).map (fun x => "  ".toList ++ encodeObj x)) ++
          "\n]".toList) =
        '[' :: '\n' ::
          (joinSep (",\n".toList) ((d :: l).map (fun x => "  ".toList ++ encodeObj x)) ++
            "\n]".toList) := rfl
    rw [hshape, decodeRecordsChars]
    have hfuel := parseItemsAux_encode (d :: l) []
      ((joinSep (",\n".toList) ((d :: l).map (fun x => "  ".toList ++ encodeObj x)) ++
        "\n]".toList).length + 1)
      (List.cons_ne_nil d l)
      (by
        have := joinSep_items_length_ge (d :: l)
        simp only [List.length_append]
        omega)
    simp only [List.append_assoc, List.append_nil] at hfuel
    rw [hfuel]
    rfl
    exact fun h => List.noConfusion h

/-! ## Helper lemmas: the table store -/

lemma load_save (t : String) (R : List Data) (st : Store) :
    loadData t (saveData R t false st) = R := by
  simp [loadData, saveData, decode_encode]

lemma save_frame {u t : String} (h : ¬ u = t) (R : List Data) (wf : Bool) (st : Store) :
    saveData R t wf st u = st u := by
  cases wf <;> simp [saveData, h]

lemma saveData_fail (R : List Data) (t : String) (st : Store) :
    saveData R t true st = st := rfl

/-! ## Helper lemmas: regex disjointness -/

lemma stripCI_head {p : Char} {ps s r : List Char} (h : stripCI (p :: ps) s = some r) :
    ∃ c cs, s = c :: cs ∧ c.toLower = p.toLower := by
  cases s with
  | nil => simp [stripCI] at h
  | cons c cs =>
    refine ⟨c, cs, rfl, ?_⟩
    by_contra hne
    simp [stripCI, hne] at h

lemma stripCI_first_char_distinct {a b : Char} {pa pb s ra : List Char}
    (hne : ¬ a.toLower = b.toLower) (ha : stripCI (a :: pa) s = some ra) :
    stripCI (b :: pb) s = none := by
  obtain ⟨c, cs, rfl, hc⟩ := stripCI_head ha
  rw [stripCI]
  rw [if_neg]
  intro hcb
  exact hne (hc.symm.trans hcb)

lemma matchSelectAll_none_of_where {s : List Char} {x : String × Nat}
    (h : matchSelectWhere s = some x) : matchSelectAll s = none := by
  unfold matchSelectWhere at h
  unfold matchSelectAll
  cases hstrip : stripCI ("SELECT * FROM ".toList) s with
  | none => rfl
  | some rest =>
    rw [hstrip] at h
    simp only [] at h
    by_cases hall : rest.all isWordChar
    · exfalso
      have hdrop : rest.dropWhile isWordChar = [] := by
        rw [List.dropWhile_eq_nil_iff]
        intro y hy
        exact List.all_eq_true.mp hall y hy
      rw [hdrop] at h
      have hnone : stripCI (" WHERE id = ".toList) ([] : List Char) = none := rfl
      rw [hnone] at h
      simp at h
    · simp [hall]

lemma insert_strip_of_matchInsert {s : List Char} {x : String × List Char × List Char}
    (h : matchInsert s = some x) :
    ∃ rest, stripCI ("INSERT INTO ".toList) s = some rest := by
  unfold matchInsert at h
  cases hstrip : stripCI ("INSERT INTO ".toList) s with
  | none => rw [hstrip] at h; exact absurd h (by simp)
  | some rest => exact ⟨rest, rfl⟩

lemma matchSelectAll_none_of_insert {s : List Char} {x : String × List Char × List Char}
    (h : matchInsert s = some x) : matchSelectAll s = none := by
  obtain ⟨rest, hstrip⟩ := insert_strip_of_matchInsert h
  have hstrip2 : stripCI ('I' :: "NSERT INTO ".toList) s = some rest := hstrip
  have hnone : stripCI ('S' :: "ELECT * FROM ".toList) s = none :=
    stripCI_first_char_distinct (by decide) hstrip2
  unfold matchSelectAll
  rw [show ("SELECT * FROM ".toList) = 'S' :: "ELECT * FROM ".toList from rfl, hnone]

lemma matchSelectWhere_none_of_insert {s : List Char} {x : String × List Char × List Char}
    (h : matchInsert s = some x) : matchSelectWhere s = none := by
  obtain ⟨rest, hstrip⟩ := insert_strip_of_matchInsert h
  have hstrip2 : stripCI ('I' :: "NSERT INTO ".toList) s = some rest := hstrip
  have hnone : stripCI ('S' :: "ELECT * FROM ".toList) s = none :=
    stripCI_first_char_distinct (by decide) hstrip2
  unfold matchSelectWhere
  rw [show ("SELECT * FROM ".toList) = 'S' :: "ELECT * FROM ".toList from rfl, hnone]

/-! ## Helper lemmas: executor -/

lemma insert_step (t : String) (f : List (String × String)) (st : Store) :
    ∃ newRec : Data,
      (execute (.insert t f) false st).1 = .inserted newRec ∧
      newRec.id = (if 0 < (loadData t st).length then maxId (loadData t st) + 1 else 1) ∧
      newRec.name = objGet ("name") f ∧
      newRec.description = objGet ("description") f ∧
      loadData t ((execute (.insert t f) false st).2) = loadData t st ++ [newRec] ∧
      (∀ u, ¬ u = t → (execute (.insert t f) false st).2 u = st u) := by
  refine ⟨_, rfl, rfl, rfl, rfl, ?_, ?_⟩
  · exact load_save t _ st
  · intro u hu
    simp only [execute, insertFinish]
    exact save_frame hu _ _ st

lemma maxInts_append_singleton_ne {xs : List Int} (h : xs ≠ []) (y : Int) :
    maxInts (xs ++ [y]) = max (maxInts xs) y := by
  cases xs with
  | nil => exact absurd rfl h
  | cons x xs => simp [maxInts, List.foldl_append]

lemma seqIds_succ (n : Nat) : seqIds (n + 1) = seqIds n ++ [(n : Int) + 1] := by
  simp [seqIds, List.range_succ]

lemma seqIds_ne_nil (n : Nat) (h : 0 < n) : seqIds n ≠ [] := by
  intro hnil
  rw [seqIds] at hnil
  have h1 : List.range n = [] := List.map_eq_nil_iff.mp hnil
  have h2 : n = 0 := List.range_eq_nil.mp h1
  omega

lemma maxInts_seqIds : ∀ n : Nat, 0 < n → maxInts (seqIds n) = (n : Int) := by
  intro n
  induction n with
  | zero => intro h; omega
  | succ m ih =>
    intro _
    rw [seqIds_succ]
    cases m with
    | zero => rfl
    | succ k =>
      rw [maxInts_append_singleton_ne (seqIds_ne_nil (k + 1) (by omega)), ih (by omega)]
      rw [max_eq_right (by omega : ((k + 1 : Nat) : Int) ≤ ((k + 1 : Nat) : Int) + 1)]
      push_cast
      ring

lemma insertSeq_ids (t : String) :
    ∀ (fs : List (List (String × String))) (st : Store) (n : Nat),
      (loadData t st).map Data.id = seqIds n →
      (loadData t (insertSeq t fs st)).map Data.id = seqIds (n + fs.length) := by
  intro fs
  induction fs with
  | nil =>
    intro st n h
    simpa [insertSeq] using h
  | cons f fs ih =>
    intro st n h
    have hstep := insert_step t f st
    obtain ⟨newRec, _, hid, _, _, hload, _⟩ := hstep
    have hnew : newRec.id = (n : Int) + 1 := by
      rcases Nat.eq_zero_or_pos n with hn | hn
      · subst hn
        have hdata : loadData t st = [] := by
          have := h
          simp only [seqIds, List.range_zero, List.map_nil] at this
          exact List.map_eq_nil_iff.mp this
        rw [hid, hdata]
        rfl
      · have hne : loadData t st ≠ [] := by
          intro hnil
          rw [hnil] at h
          exact seqIds_ne_nil n hn (by simpa using h.symm)
        have hlen : 0 < (loadData t st).length := List.length_pos.mpr hne
        rw [hid, if_pos hlen]
        show maxInts ((loadData t st).map Data.id) + 1 = (n : Int) + 1
        rw [h, maxInts_seqIds n hn]
    have hstore : insertSeq t (f :: fs) st = insertSeq t fs ((execute (.insert t f) false st).2) := by
      simp [insertSeq]
    rw [hstore]
    have hids : (loadData t ((execute (.insert t f) false st).2)).map Data.id = seqIds (n + 1) := by
      rw [hload, List.map_append, h, List.map_singleton, hnew, seqIds_succ]
    have := ih ((execute (.insert t f) false st).2) (n + 1) hids
    rw [this]
    congr 1
    simp only [List.length_cons]
    omega

/-! ## Helper lemmas: sqlParser branch characterization -/

lemma sqlParser_selectAll {s t : String}
    (h : matchSelectAll (trimChars s.toList) = some t) :
    sqlParser s = .ok (.selectAll t) := by
  unfold sqlParser
  simp only [h]

lemma sqlParser_selectWhere {s tb : String} {k : Nat}
    (h : matchSelectWhere (trimChars s.toList) = some (tb, k)) :
    sqlParser s = .ok (.selectById tb k) := by
  unfold sqlParser
  simp only [matchSelectAll_none_of_where h, h]

lemma sqlParser_insert {s tb : String} {cs vs : List Char}
    (h : matchInsert (trimChars s.toList) = some (tb, cs, vs)) :
    sqlParser s =
      (if ((splitComma cs).map (fun c => String.mk (trimChars c))).length ≠
          ((splitComma vs).map (fun v => String.mk (trimChars v))).length then
        .error .countMismatch
      else
        .ok (.insert tb
          (((splitComma cs).map (fun c => String.mk (trimChars c))).zip
            ((splitComma vs).map (fun v => String.mk (trimChars v)))))) := by
  unfold sqlParser
  simp only [matchSelectAll_none_of_insert h, matchSelectWhere_none_of_insert h, h]

lemma sqlParser_unsupported {s : String}
    (h1 : matchSelectAll (trimChars s.toList) = none)
    (h2 : matchSelectWhere (trimChars s.toList) = none)
    (h3 : matchInsert (trimChars s.toList) = none) :
    sqlParser s = .error .unsupported := by
  unfold sqlParser
  simp only [h1, h2, h3]

lemma handle_parse_error {s : String} {e : ParseErr} (h : sqlParser s = .error e)
    (wf : Bool) (st : Store) : handle s wf st = (.invalidCommand, st) := by
  unfold handle
  rw [h]

lemma seqIds_nodup (n : Nat) : (seqIds n).Nodup := by
  refine List.Nodup.map ?_ (List.nodup_range _)
  intro a b hab
  simp only at hab
  omega

/-! ## Claim theorems -/

/-- C1: an Insert loads the table, assigns `max(existing ids) + 1` (`1` on an
empty table), appends the new record and saves the whole sequence, returning
`Inserted(newRecord)`; consequently a sequence of Inserts executed one after
another against an initially empty table assigns exactly the ids
`1, 2, …, n`, with no duplicates and no gaps. -/
theorem insert_assigns_sequential_ids :
    (∀ (t : String) (f : List (String × String)) (st : Store),
        ∃ newRec : Data,
          (execute (.insert t f) false st).1 = .inserted newRec ∧
          newRec.id = (if 0 < (loadData t st).length then maxId (loadData t st) + 1 else 1) ∧
          loadData t ((execute (.insert t f) false st).2) = loadData t st ++ [newRec]) ∧
    (∀ (t : String) (fs : List (List (String × String))),
        (loadData t (insertSeq t fs emptyStore)).map Data.id = seqIds fs.length ∧
        ((loadData t (insertSeq t fs emptyStore)).map Data.id).Nodup) := by
  constructor
  · intro t f st
    obtain ⟨r, h1, h2, _, _, h5, _⟩ := insert_step t f st
    exact ⟨r, h1, h2, h5⟩
  · intro t fs
    have hbase : (loadData t emptyStore).map Data.id = seqIds 0 := rfl
    have h := insertSeq_ids t fs emptyStore 0 hbase
    rw [Nat.zero_add] at h
    exact ⟨h, h ▸ seqIds_nodup fs.length⟩

/-- C2: the claim asserts that Insert's load/compute/append/save cycle is a
per-table critical section so concurrent Inserts can never assign duplicate
ids or lose a record.  The source has no mutual exclusion: each `await` in the
INSERT branch is an interleaving point, and in the schedule where both
connections' `loadData` complete before either `saveData` (modelled here by
running both load phases against the same starting store), both clients are
answered `Inserted` with id 1 and the first record is absent from the final
durable state — a duplicate id and a lost update. -/
theorem concurrent_inserts_race :
    ((insertFinish ("t") [(("name"), ("A"))] false (loadData ("t") emptyStore) emptyStore).1
      = .inserted ⟨1, some ("A"), none⟩) ∧
    ((insertFinish ("t") [(("name"), ("B"))] false (loadData ("t") emptyStore)
        (insertFinish ("t") [(("name"), ("A"))] false (loadData ("t") emptyStore) emptyStore).2).1
      = .inserted ⟨1, some ("B"), none⟩) ∧
    (loadData ("t")
        (insertFinish ("t") [(("name"), ("B"))] false (loadData ("t") emptyStore)
          (insertFinish ("t") [(("name"), ("A"))] false (loadData ("t") emptyStore) emptyStore).2).2
      = [⟨1, some ("B"), none⟩]) := by
  refine ⟨rfl, rfl, ?_⟩
  exact load_save ("t") _ _

/-- C3 counterexample: with a failing durable write (`writeFails = true`,
i.e. `fs.writeFile` rejects), the INSERT branch still answers
`Inserted(newRecord)` — `saveData`'s `catch` only logs, so no `StorageError`
exists and no `ExecutionError` reaches the client, refuting the claim that a
failed save does not report success. -/
theorem save_failure_reports_success :
    (execute (.insert ("t") [(("name"), ("x"))]) true emptyStore).1
      = .inserted ⟨1, some ("x"), none⟩ := rfl

/-- C3 amended: when the durable write for an Insert fails, `saveData`
catches and logs the error, the durable state is left unchanged, and the
Insert nevertheless returns `Inserted(newRecord)`; no storage failure is ever
surfaced to the client. -/
theorem save_failure_swallowed :
    ∀ (t : String) (f : List (String × String)) (st : Store),
      (∃ r : Data, (execute (.insert t f) true st).1 = .inserted r) ∧
      (execute (.insert t f) true st).2 = st := by
  intro t f st
  exact ⟨⟨_, rfl⟩, rfl⟩

/-- C4 counterexample: a durable representation that exists but is not a
well-formed encoding (`JSON.parse` throws on `"not json"`) is reported by
`loadData` as the empty table — the `catch` returns `[]` — rather than
failing with a `StorageError`, refuting the claim. -/
theorem corrupt_table_loads_empty :
    decodeRecords ("not json") = none ∧
    loadData ("t") (fun u => if u = ("t") then some ("not json") else none) = [] :=
  ⟨rfl, rfl⟩

/-- C4 amended: `loadData` returns the decoded durable sequence when the
table's file exists and decodes; it returns the empty sequence both when no
durable state exists and when the durable representation is unreadable or
corrupt (the error is caught and logged); no `StorageError` surfaces. -/
theorem load_swallows_failures :
    ∀ (t : String) (st : Store),
      (st t = none → loadData t st = []) ∧
      (∀ txt, st t = some txt → decodeRecords txt = none → loadData t st = []) ∧
      (∀ txt R, st t = some txt → decodeRecords txt = some R → loadData t st = R) := by
  intro t st
  refine ⟨fun h => ?_, fun txt h1 h2 => ?_, fun txt R h1 h2 => ?_⟩ <;>
    simp [loadData, *]

/-- C4 witness: the amended theorem applied to a concrete store whose table
file holds undecodable text. -/
theorem load_swallows_failures_witness :
    loadData ("t") (fun u => if u = ("t") then some ("oops") else none) = [] :=
  (load_swallows_failures ("t") (fun u => if u = ("t") then some ("oops") else none)).2.1
    ("oops") (by decide) (by decide)

/-- C5: the parser is total with the specified failures: any (trimmed) line
matched by one of the three regexes yields the corresponding command, an
INSERT whose comma-split column and value lists differ in length throws the
count-mismatch parse error, and a line matching none of the three shapes
throws the unsupported-command parse error. -/
theorem sqlParser_total_spec :
    (∀ (s t : String), matchSelectAll (trimChars s.toList) = some t →
        sqlParser s = .ok (.selectAll t)) ∧
    (∀ (s tb : String) (k : Nat), matchSelectWhere (trimChars s.toList) = some (tb, k) →
        sqlParser s = .ok (.selectById tb k)) ∧
    (∀ (s tb : String) (cs vs : List Char), matchInsert (trimChars s.toList) = some (tb, cs, vs) →
        ((splitComma cs).length ≠ (splitComma vs).length →
            sqlParser s = .error .countMismatch) ∧
        ((splitComma cs).length = (splitComma vs).length →
            sqlParser s = .ok (.insert tb
              (((splitComma cs).map (fun c => String.mk (trimChars c))).zip
                ((splitComma vs).map (fun v => String.mk (trimChars v))))))) ∧
    (∀ s : String, matchSelectAll (trimChars s.toList) = none →
        matchSelectWhere (trimChars s.toList) = none →
        matchInsert (trimChars s.toList) = none →
        sqlParser s = .error .unsupported) := by
  refine ⟨fun s t h => sqlParser_selectAll h, fun s tb k h => sqlParser_selectWhere h,
    ?_, fun s h1 h2 h3 => sqlParser_unsupported h1 h2 h3⟩
  intro s tb cs vs h
  constructor
  · intro hne
    rw [sqlParser_insert h, if_pos]
    simpa using hne
  · intro heq
    rw [sqlParser_insert h, if_neg]
    simpa using heq

/-- C5 witness: the INSERT arity check at a concrete mismatched statement. -/
theorem sqlParser_total_spec_witness :
    sqlParser ("INSERT INTO t (a, b) VALUES (x)") = .error .countMismatch :=
  (sqlParser_total_spec.2.2.1 ("INSERT INTO t (a, b) VALUES (x)") ("t") ("a, b".toList)
    ("x".toList) (by decide)).1 (by decide)

/-- C6: `SELECT * FROM t WHERE id = k` loads the table and answers with the
singleton row whose id is `k` when one is present (`data.find`), the
not-found response otherwise, and a rows answer never holds more than one
record. -/
theorem selectById_unique_result :
    ∀ (t : String) (k : Nat) (st : Store),
      ((∃ r ∈ loadData t st, r.id = (k : Int)) →
        ∃ r, execute (.selectById t k) false st = (.rows [r], st) ∧
          r ∈ loadData t st ∧ r.id = (k : Int)) ∧
      ((∀ r ∈ loadData t st, ¬ r.id = (k : Int)) →
        execute (.selectById t k) false st = (.notFound, st)) ∧
      (∀ (l : List Data) (st' : Store),
        execute (.selectById t k) false st = (.rows l, st') → l.length ≤ 1) := by
  intro t k st
  refine ⟨?_, ?_, ?_⟩
  · rintro ⟨r, hr, hid⟩
    have hsome : ((loadData t st).find? (fun s => s.id == (k : Int))).isSome := by
      rw [List.find?_isSome]
      exact ⟨r, hr, by simp [hid]⟩
    obtain ⟨r2, hr2⟩ := Option.isSome_iff_exists.mp hsome
    refine ⟨r2, ?_, List.mem_of_find?_eq_some hr2, ?_⟩
    · simp only [execute, hr2]
    · have := List.find?_some hr2
      simpa using this
  · intro hnone
    have hfind : (loadData t st).find? (fun s => s.id == (k : Int)) = none := by
      rw [List.find?_eq_none]
      intro x hx
      simp [hnone x hx]
    simp only [execute, hfind]
  · intro l st' hex
    simp only [execute] at hex
    cases hfind : (loadData t st).find? (fun s => s.id == (k : Int)) with
    | none =>
      rw [hfind] at hex
      exact absurd (congrArg Prod.fst hex) (by simp)
    | some r2 =>
      rw [hfind] at hex
      have : Result.rows [r2] = Result.rows l := congrArg Prod.fst hex
      have hl : [r2] = l := by injection this
      rw [← hl]
      exact Nat.le_refl 1

/-- C6 witness: the found branch at a concrete one-record store. -/
theorem selectById_unique_result_witness :
    ∃ r, execute (.selectById ("t") 1) false
        (saveData ([⟨1, some ("A"), none⟩]) ("t") false emptyStore)
      = (.rows [r], saveData ([⟨1, some ("A"), none⟩]) ("t") false emptyStore) ∧
      r ∈ loadData ("t") (saveData ([⟨1, some ("A"), none⟩]) ("t") false emptyStore) ∧
      r.id = ((1 : Nat) : Int) :=
  (selectById_unique_result ("t") 1
      (saveData ([⟨1, some ("A"), none⟩]) ("t") false emptyStore)).1
    ⟨⟨1, some ("A"), none⟩, by decide, by decide⟩

/-- C7: persisted state survives a save/load round trip unchanged, both at
the store level (`loadData` after `saveData` returns the saved sequence) and
at the encoding level (`JSON.parse` of `JSON.stringify(R, null, 2)` recovers
`R`). -/
theorem save_load_round_trip :
    ∀ (t : String) (R : List Data) (st : Store),
      loadData t (saveData R t false st) = R ∧
      decodeRecords (encodeRecords R) = some R :=
  fun t R st => ⟨load_save t R st, decode_encode R⟩

/-- C8: only Insert execution mutates durable state: both SELECT branches
return the store untouched, a line that fails to parse leaves the store
untouched, an Insert on table `t` leaves every other table's file untouched,
and the records an Insert writes are the previously loaded records with the
single new one appended — never mutating or deleting an existing record. -/
theorem only_insert_mutates :
    (∀ (t : String) (st : Store), (execute (.selectAll t) false st).2 = st) ∧
    (∀ (t : String) (k : Nat) (st : Store), (execute (.selectById t k) false st).2 = st) ∧
    (∀ (s : String) (e : ParseErr) (st : Store), sqlParser s = .error e →
        (handle s false st).2 = st) ∧
    (∀ (t : String) (f : List (String × String)) (st : Store) (u : String), ¬ u = t →
        (execute (.insert t f) false st).2 u = st u) ∧
    (∀ (t : String) (f : List (String × String)) (st : Store),
        ∃ r, loadData t ((execute (.insert t f) false st).2) = loadData t st ++ [r]) := by
  refine ⟨fun t st => rfl, ?_, ?_, ?_, ?_⟩
  · intro t k st
    simp only [execute]
    cases hfind : (loadData t st).find? (fun s => s.id == (k : Int)) <;> simp [hfind]
  · intro s e st h
    rw [handle_parse_error h]
  · intro t f st u hu
    obtain ⟨r, _, _, _, _, _, h6⟩ := insert_step t f st
    exact h6 u hu
  · intro t f st
    obtain ⟨r, _, _, _, _, h5, _⟩ := insert_step t f st
    exact ⟨r, h5⟩

/-- C8 witness: a non-parsing command against the empty store. -/
theorem only_insert_mutates_witness :
    (handle ("DROP TABLE spells") false emptyStore).2 = emptyStore :=
  only_insert_mutates.2.2.1 ("DROP TABLE spells") .unsupported emptyStore rfl

/-- C9: an Insert whose field bag lacks `name` or `description` is not
rejected: the record is built with the JS-`undefined` (`none`) value for each
missing attribute, persisted, and reported as `Inserted(newRecord)`. -/
theorem insert_missing_fields_not_rejected :
    ∀ (t : String) (f : List (String × String)) (st : Store),
      ∃ r : Data,
        (execute (.insert t f) false st).1 = .inserted r ∧
        loadData t ((execute (.insert t f) false st).2) = loadData t st ++ [r] ∧
        (objGet ("name") f = none → r.name = none) ∧
        (objGet ("description") f = none → r.description = none) := by
  intro t f st
  obtain ⟨r, h1, _, h3, h4, h5, _⟩ := insert_step t f st
  exact ⟨r, h1, h5, fun h => h3.trans h, fun h => h4.trans h⟩

/-- C9 witness: an INSERT naming neither `name` nor `description` is stored
and reported successfully with both attributes absent. -/
theorem insert_missing_fields_witness :
    ∃ r : Data,
      (execute (.insert ("characters") [(("class"), ("mage"))]) false emptyStore).1
        = .inserted r ∧
      loadData ("characters")
          ((execute (.insert ("characters") [(("class"), ("mage"))]) false emptyStore).2)
        = loadData ("characters") emptyStore ++ [r] ∧
      r.name = none ∧ r.description = none := by
  obtain ⟨r, h1, h2, h3, h4⟩ :=
    insert_missing_fields_not_rejected ("characters") [(("class"), ("mage"))] emptyStore
  exact ⟨r, h1, h2, h3 (by decide), h4 (by decide)⟩

/-- C10: the record an Insert constructs and stores has exactly the
attributes `id`, `name`, `description` (the `Data` type): its id is the
server-computed one and its other two attributes read only the `name` and
`description` keys of the parsed field bag, so any other column — including a
client-supplied `id` — never affects the stored record. -/
theorem insert_stores_only_known_fields :
    (∀ (t : String) (f : List (String × String)) (st : Store),
        ∃ r : Data,
          (execute (.insert t f) false st).1 = .inserted r ∧
          r.id = (if 0 < (loadData t st).length then maxId (loadData t st) + 1 else 1) ∧
          r.name = objGet ("name") f ∧
          r.description = objGet ("description") f) ∧
    (∀ (t : String) (f g : List (String × String)) (st : Store),
        objGet ("name") f = objGet ("name") g →
        objGet ("description") f = objGet ("description") g →
        execute (.insert t f) false st = execute (.insert t g) false st) := by
  constructor
  · intro t f st
    obtain ⟨r, h1, h2, h3, h4, _, _⟩ := insert_step t f st
    exact ⟨r, h1, h2, h3, h4⟩
  · intro t f g st hn hd
    simp only [execute, insertFinish, hn, hd]

/-- C10 witness: a client-supplied `id` column and an unknown column produce
exactly the same execution as the statement without them. -/
theorem insert_stores_only_known_fields_witness :
    execute (.insert ("t") [(("name"), ("x")), (("id"), ("99")), (("power"), ("9001"))])
        false emptyStore
      = execute (.insert ("t") [(("name"), ("x"))]) false emptyStore :=
  insert_stores_only_known_fields.2 ("t")
    [(("name"), ("x")), (("id"), ("99")), (("power"), ("9001"))] [(("name"), ("x"))]
    emptyStore (by decide) (by decide)

end DB
